import Mathlib

/-!
Shallow embedding of the Genode packet-stream transport
(`os/include/os/packet_stream.h` in this repository) and proofs about it.

The C++ templates `Packet_descriptor_queue`, `Packet_descriptor_transmitter`,
`Packet_stream_base` and `Packet_stream_source` are translated into pure Lean
functions.  Machine integers are modelled as `Nat`/`Int`; where the C++
arithmetic can wrap (the unsigned comparison inside `packet_valid`), the
reduction modulo `2^64` is written out explicitly (64-bit `Genode::size_t` /
`Genode::off_t`).
-/

set_option maxHeartbeats 1000000

namespace Genode

/-!
## Packet-descriptor ring buffer

`Packet_descriptor_queue<PACKET_DESCRIPTOR, QUEUE_SIZE>` is a circular buffer
of `QUEUE_SIZE` descriptors with a producer-owned `_head` and a consumer-owned
`_tail` index.  The storage array `_queue` is modelled as a total function
`Nat → PD`; all accesses in the source are of the form `_queue[i % QUEUE_SIZE]`.
-/

structure Packet_descriptor_queue (PD : Type) (N : Nat) where
  head  : Nat
  tail  : Nat
  queue : Nat → PD

namespace Packet_descriptor_queue

variable {PD : Type} {N : Nat}

/-- `bool empty() { return _tail == _head; }` -/
def empty (q : Packet_descriptor_queue PD N) : Bool :=
  decide (q.tail = q.head)

/-- `bool full() { return (_head + 1)%QUEUE_SIZE == _tail; }` -/
def full (q : Packet_descriptor_queue PD N) : Bool :=
  decide ((q.head + 1) % N = q.tail)

/-- `bool single_element() { return (_tail + 1)%QUEUE_SIZE == _head; }` -/
def single_element (q : Packet_descriptor_queue PD N) : Bool :=
  decide ((q.tail + 1) % N = q.head)

/-- `bool single_slot_free() { return (_head + 2)%QUEUE_SIZE == _tail; }` -/
def single_slot_free (q : Packet_descriptor_queue PD N) : Bool :=
  decide ((q.head + 2) % N = q.tail)

/-- `unsigned slots_free()` — the C++ computes
`((_tail > _head) ? _tail - _head : QUEUE_SIZE - _head + _tail) - 1` in
unsigned arithmetic; under the reachable-state invariant `head < N ∧ tail < N`
no subtraction underflows, so `Nat` subtraction coincides with it. -/
def slots_free (q : Packet_descriptor_queue PD N) : Nat :=
  (if q.head < q.tail then q.tail - q.head else N - q.head + q.tail) - 1

/-- `bool add(PACKET_DESCRIPTOR packet)` -/
def add (q : Packet_descriptor_queue PD N) (p : PD) :
    Bool × Packet_descriptor_queue PD N :=
  if q.full then (false, q)
  else (true, { head  := (q.head + 1) % N,
                tail  := q.tail,
                queue := fun i => if i = q.head % N then p else q.queue i })

/-- `PACKET_DESCRIPTOR get()` -/
def get (q : Packet_descriptor_queue PD N) :
    PD × Packet_descriptor_queue PD N :=
  (q.queue (q.tail % N),
   { head := q.head, tail := (q.tail + 1) % N, queue := q.queue })

/-- `PACKET_DESCRIPTOR peek() const` -/
def peek (q : Packet_descriptor_queue PD N) : PD :=
  q.queue (q.tail % N)

/-- Combined initial state of the queue: the PRODUCER role constructor sets
`_head = 0` and clears the storage (`z` is the all-zero descriptor), the
CONSUMER role constructor sets `_tail = 0`. -/
def initQueue (z : PD) : Packet_descriptor_queue PD N :=
  { head := 0, tail := 0, queue := fun _ => z }

/-- Both indices stay below `N`: established by the constructor and preserved
by `add`/`get`, which reduce modulo `N`. -/
def Inv (q : Packet_descriptor_queue PD N) : Prop :=
  q.head < N ∧ q.tail < N

/-- Number of descriptors held: `(head - tail) mod N`, written without
integer subtraction. -/
def count (q : Packet_descriptor_queue PD N) : Nat :=
  (q.head + N - q.tail) % N

/-- Abstract FIFO contents: descriptors from `tail` (oldest) to `head`. -/
def contents (q : Packet_descriptor_queue PD N) : List PD :=
  (List.range q.count).map (fun i => q.queue ((q.tail + i) % N))

/- ### Arithmetic helpers -/

theorem mod_small_cases {x : Nat} (hN : 0 < N) (hx : x < 2 * N) :
    x % N = if x < N then x else x - N := by
  split
  · exact Nat.mod_eq_of_lt (by assumption)
  · rw [Nat.mod_eq_sub_mod (by omega), Nat.mod_eq_of_lt (by omega)]

theorem count_eq_if (q : Packet_descriptor_queue PD N)
    (hh : q.head < N) (ht : q.tail < N) :
    q.count = if q.tail ≤ q.head then q.head - q.tail else q.head + N - q.tail := by
  unfold count
  rcases le_or_lt q.tail q.head with h | h
  · have he : q.head + N - q.tail = (q.head - q.tail) + N := by omega
    rw [if_pos h, he, Nat.add_mod_right, Nat.mod_eq_of_lt (by omega)]
  · rw [if_neg (by omega), Nat.mod_eq_of_lt (by omega)]

theorem count_lt (q : Packet_descriptor_queue PD N) (hN : 0 < N) :
    q.count < N :=
  Nat.mod_lt _ hN

theorem empty_iff (q : Packet_descriptor_queue PD N)
    (hh : q.head < N) (ht : q.tail < N) :
    q.empty = true ↔ q.count = 0 := by
  have hc := count_eq_if q hh ht
  simp only [empty, decide_eq_true_eq]
  split at hc <;> omega

theorem full_iff (q : Packet_descriptor_queue PD N)
    (hh : q.head < N) (ht : q.tail < N) :
    q.full = true ↔ q.count = N - 1 := by
  have hc := count_eq_if q hh ht
  simp only [full, decide_eq_true_eq]
  rw [mod_small_cases (by omega) (by omega)]
  split at hc <;> split <;> omega

theorem single_element_iff (q : Packet_descriptor_queue PD N)
    (hN : 2 ≤ N) (hh : q.head < N) (ht : q.tail < N) :
    q.single_element = true ↔ q.count = 1 := by
  have hc := count_eq_if q hh ht
  simp only [single_element, decide_eq_true_eq]
  rw [mod_small_cases (by omega) (by omega)]
  split at hc <;> split <;> omega

theorem single_slot_free_iff (q : Packet_descriptor_queue PD N)
    (hN : 2 ≤ N) (hh : q.head < N) (ht : q.tail < N) :
    q.single_slot_free = true ↔ q.count = N - 2 := by
  have hc := count_eq_if q hh ht
  simp only [single_slot_free, decide_eq_true_eq]
  rw [mod_small_cases (by omega) (by omega)]
  split at hc <;> split <;> omega

theorem slots_free_eq (q : Packet_descriptor_queue PD N)
    (hh : q.head < N) (ht : q.tail < N) :
    q.slots_free = N - 1 - q.count := by
  have hc := count_eq_if q hh ht
  unfold slots_free
  split at hc <;> split <;> omega

/- ### `add` and `get` -/

theorem add_of_full (q : Packet_descriptor_queue PD N) (p : PD)
    (hf : q.full = true) : q.add p = (false, q) := by
  simp [add, hf]

theorem add_head (q : Packet_descriptor_queue PD N) (p : PD)
    (hf : q.full = false) :
    (q.add p).2.head = (q.head + 1) % N ∧ (q.add p).2.tail = q.tail := by
  simp [add, hf]

theorem add_ok (q : Packet_descriptor_queue PD N) (p : PD)
    (hf : q.full = false) : (q.add p).1 = true := by
  simp [add, hf]

theorem inv_add (q : Packet_descriptor_queue PD N) (p : PD)
    (hN : 0 < N) (h : Inv q) : Inv (q.add p).2 := by
  unfold add
  split
  · exact h
  · exact ⟨Nat.mod_lt _ hN, h.2⟩

theorem inv_get (q : Packet_descriptor_queue PD N)
    (hN : 0 < N) (h : Inv q) : Inv (q.get).2 :=
  ⟨h.1, Nat.mod_lt _ hN⟩

theorem count_add (q : Packet_descriptor_queue PD N) (p : PD)
    (hh : q.head < N) (ht : q.tail < N) (hf : q.full = false) :
    (q.add p).2.count = q.count + 1 := by
  have hN : 0 < N := by omega
  have hfull : ¬ ((q.head + 1) % N = q.tail) := by
    simpa [full] using hf
  have hc := count_eq_if q hh ht
  simp only [add, hf, Bool.false_eq_true, if_false]
  show ((q.head + 1) % N + N - q.tail) % N = q.count + 1
  rcases Nat.lt_or_ge (q.head + 1) N with h1 | h1
  · rw [Nat.mod_eq_of_lt h1] at hfull ⊢
    rw [mod_small_cases hN (by omega)]
    split at hc <;> split <;> omega
  · have he : q.head + 1 = N := by omega
    rw [he, Nat.mod_self] at hfull ⊢
    rw [mod_small_cases hN (by omega)]
    split at hc <;> split <;> omega

theorem count_get (q : Packet_descriptor_queue PD N)
    (hh : q.head < N) (ht : q.tail < N) (he : q.empty = false) :
    (q.get).2.count = q.count - 1 := by
  have hN : 0 < N := by omega
  have hemp : ¬ (q.tail = q.head) := by simpa [empty] using he
  have hc := count_eq_if q hh ht
  show (q.head + N - (q.tail + 1) % N) % N = q.count - 1
  rcases Nat.lt_or_ge (q.tail + 1) N with h1 | h1
  · rw [Nat.mod_eq_of_lt h1, mod_small_cases hN (by omega)]
    split at hc <;> split <;> omega
  · have he' : q.tail + 1 = N := by omega
    rw [he', Nat.mod_self, mod_small_cases hN (by omega)]
    split at hc <;> split <;> omega

theorem map_congr_range {α : Type} (f g : Nat → α) (n : Nat)
    (h : ∀ i, i < n → f i = g i) :
    (List.range n).map f = (List.range n).map g := by
  induction n with
  | zero => rfl
  | succ m ih =>
    rw [List.range_succ, List.map_append, List.map_append,
        ih (fun i hi => h i (by omega))]
    simp [h m (by omega)]

theorem contents_add (q : Packet_descriptor_queue PD N) (p : PD)
    (hh : q.head < N) (ht : q.tail < N) (hf : q.full = false) :
    (q.add p).2.contents = q.contents ++ [p] := by
  have hN : 0 < N := by omega
  have hc := count_eq_if q hh ht
  have hcnt := count_add q p hh ht hf
  have hhead : q.head % N = q.head := Nat.mod_eq_of_lt hh
  have hclt : q.count < N := count_lt q hN
  have hidx : ∀ i, i ≤ q.count → ((q.tail + i) % N = q.head % N ↔ i = q.count) := by
    intro i hi
    rw [hhead, mod_small_cases hN (by omega)]
    split at hc <;> split <;> omega
  unfold contents
  rw [hcnt, List.range_succ, List.map_append]
  simp only [add, hf, Bool.false_eq_true, if_false]
  congr 1
  · apply map_congr_range
    intro i hi
    have h1 : ¬ ((q.tail + i) % N = q.head % N) := by
      rw [hidx i (by omega)]
      omega
    simp [h1]
  · have h2 : (q.tail + q.count) % N = q.head % N := (hidx q.count le_rfl).2 rfl
    simp [h2]

theorem contents_get (q : Packet_descriptor_queue PD N)
    (hh : q.head < N) (ht : q.tail < N) (he : q.empty = false) :
    q.contents = (q.get).1 :: (q.get).2.contents := by
  have hN : 0 < N := by omega
  have hcnt := count_get q hh ht he
  have hpos : 0 < q.count := by
    rcases Nat.eq_zero_or_pos q.count with h | h
    · exact absurd ((empty_iff q hh ht).2 h) (by simp [he])
    · exact h
  unfold contents
  rw [hcnt]
  show (List.range q.count).map (fun i => q.queue ((q.tail + i) % N)) =
    q.queue (q.tail % N) ::
      (List.range (q.count - 1)).map (fun i => q.queue (((q.tail + 1) % N + i) % N))
  have hc' : q.count = (q.count - 1) + 1 := by omega
  rw [hc', List.range_succ_eq_map, List.map_cons, List.map_map]
  congr 1
  simp only [Nat.add_sub_cancel]
  apply map_congr_range
  intro i hi
  show q.queue ((q.tail + Nat.succ i) % N) = q.queue (((q.tail + 1) % N + i) % N)
  rw [Nat.mod_add_mod]
  have hrw : q.tail + Nat.succ i = q.tail + 1 + i := by omega
  rw [hrw]

theorem contents_init (z : PD) (hN : 0 < N) :
    (initQueue (N := N) z).contents = [] := by
  simp [contents, count, initQueue]

theorem inv_init (z : PD) (hN : 0 < N) : Inv (initQueue (N := N) z) :=
  ⟨hN, hN⟩

/-!
### Operation sequences

An operation sequence abstracts a client of the queue: each `Op.add p` is an
`add(p)` call, each `Op.get` a `get()` call.  A sequence is `legal` when — as
the spec requires — every `add` is performed only on a non-`full()` queue and
every `get` only on a non-`empty()` queue.
-/

inductive Op (PD : Type) where
  | add (p : PD)
  | get

/-- Execute a sequence of operations; collect the descriptors returned by the
`get` calls in order. -/
def run (q : Packet_descriptor_queue PD N) :
    List (Op PD) → Packet_descriptor_queue PD N × List PD
  | [] => (q, [])
  | Op.add p :: ops => run (q.add p).2 ops
  | Op.get :: ops =>
    let r := run (q.get).2 ops
    (r.1, (q.get).1 :: r.2)

/-- The sequence respects the `full()`/`empty()` checks along the run. -/
def legal (q : Packet_descriptor_queue PD N) : List (Op PD) → Bool
  | [] => true
  | Op.add p :: ops => !q.full && legal (q.add p).2 ops
  | Op.get :: ops => !q.empty && legal (q.get).2 ops

/-- The descriptors passed to `add`, in order. -/
def addsOf : List (Op PD) → List PD
  | [] => []
  | Op.add p :: ops => p :: addsOf ops
  | Op.get :: ops => addsOf ops

theorem run_fifo (hN : 0 < N) (ops : List (Op PD)) :
    ∀ q : Packet_descriptor_queue PD N, Inv q → legal q ops = true →
      (run q ops).2 ++ ((run q ops).1).contents = q.contents ++ addsOf ops := by
  induction ops with
  | nil => intro q hq hl; simp [run, addsOf]
  | cons op ops ih =>
    intro q hq hl
    cases op with
    | add p =>
      rw [legal] at hl
      rw [Bool.and_eq_true, Bool.not_eq_true'] at hl
      obtain ⟨hf, hl'⟩ := hl
      rw [run, addsOf]
      rw [ih _ (inv_add q p hN hq) hl', contents_add q p hq.1 hq.2 hf]
      simp
    | get =>
      rw [legal] at hl
      rw [Bool.and_eq_true, Bool.not_eq_true'] at hl
      obtain ⟨he, hl'⟩ := hl
      rw [run, addsOf]
      show (q.get).1 :: (run (q.get).2 ops).2 ++ _ = _
      rw [List.cons_append, ih _ (inv_get q hN hq) hl',
          contents_get q hq.1 hq.2 he]
      simp

/-- Queue states reachable from the freshly constructed queue through
guard-respecting `add`/`get` calls. -/
inductive Reachable (z : PD) : Packet_descriptor_queue PD N → Prop where
  | init : Reachable z (initQueue z)
  | add (q : Packet_descriptor_queue PD N) (p : PD) :
      Reachable z q → q.full = false → Reachable z (q.add p).2
  | get (q : Packet_descriptor_queue PD N) :
      Reachable z q → q.empty = false → Reachable z (q.get).2

theorem reachable_inv {z : PD} {q : Packet_descriptor_queue PD N}
    (hN : 0 < N) (h : Reachable z q) : Inv q := by
  induction h with
  | init => exact inv_init z hN
  | add q p _ _ ih => exact inv_add q p hN ih
  | get q _ _ ih => exact inv_get q hN ih

/-- Fold `add` over a list of descriptors; the Bool records whether every
single `add` returned true. -/
def addList (q : Packet_descriptor_queue PD N) :
    List PD → Packet_descriptor_queue PD N × Bool
  | [] => (q, true)
  | p :: ps =>
    let r := q.add p
    let rest := addList r.2 ps
    (rest.1, r.1 && rest.2)

theorem not_full_of_count (q : Packet_descriptor_queue PD N)
    (hh : q.head < N) (ht : q.tail < N) (h : q.count ≠ N - 1) :
    q.full = false := by
  rcases hfb : q.full with _ | _
  · rfl
  · exact absurd ((full_iff q hh ht).1 hfb) h

theorem not_empty_of_count (q : Packet_descriptor_queue PD N)
    (hh : q.head < N) (ht : q.tail < N) (h : q.count ≠ 0) :
    q.empty = false := by
  rcases hfb : q.empty with _ | _
  · rfl
  · exact absurd ((empty_iff q hh ht).1 hfb) h

theorem addList_ok (hN : 0 < N) (ps : List PD) :
    ∀ q : Packet_descriptor_queue PD N, Inv q → q.count + ps.length < N →
      (addList q ps).2 = true ∧
      ((addList q ps).1).count = q.count + ps.length ∧
      Inv (addList q ps).1 := by
  induction ps with
  | nil => intro q hq hlen; exact ⟨rfl, by simp [addList], hq⟩
  | cons p ps ih =>
    intro q hq hlen
    have hf : q.full = false := by
      apply not_full_of_count q hq.1 hq.2
      simp only [List.length_cons] at hlen
      omega
    have hcnt := count_add q p hq.1 hq.2 hf
    have hinv' := inv_add q p hN hq
    have hrec := ih (q.add p).2 hinv' (by simp only [List.length_cons] at hlen; omega)
    refine ⟨?_, ?_, hrec.2.2⟩
    · show ((q.add p).1 && (addList (q.add p).2 ps).2) = true
      rw [add_ok q p hf, hrec.1]
      rfl
    · show ((addList (q.add p).2 ps).1).count = _
      rw [hrec.2.1, hcnt]
      simp only [List.length_cons]
      omega

end Packet_descriptor_queue

open Packet_descriptor_queue in
/-- C1: For every sequence of `add`/`get` operations on a
`Packet_descriptor_queue` in which each `add` is performed only when `full()`
is false and each `get` only when `empty()` is false, the queue behaves as a
FIFO list: the descriptors returned by the `get` calls followed by the
descriptors still in the queue are exactly the descriptors added, in order —
none lost, none duplicated. -/
theorem queue_fifo_law {PD : Type} (N : Nat) (z : PD) (ops : List (Op PD))
    (hN : 0 < N) (hl : legal (initQueue (N := N) z) ops = true) :
    (run (initQueue (N := N) z) ops).2 ++
      ((run (initQueue (N := N) z) ops).1).contents = addsOf ops := by
  have h := run_fifo hN ops (initQueue z) (inv_init z hN) hl
  rwa [contents_init z hN, List.nil_append] at h

open Packet_descriptor_queue in
/-- C1 witness: a concrete guard-respecting run on a queue of capacity 3. -/
theorem queue_fifo_law_witness :
    (run (initQueue (N := 3) (0 : Nat)) [Op.add 5, Op.add 7, Op.get, Op.get]).2 ++
      ((run (initQueue (N := 3) (0 : Nat)) [Op.add 5, Op.add 7, Op.get, Op.get]).1).contents
      = [5, 7] :=
  queue_fifo_law 3 0 [Op.add 5, Op.add 7, Op.get, Op.get] (by decide) (by decide)

open Packet_descriptor_queue in
/-- C2: `add` on a full queue returns false and leaves the queue unchanged;
starting from the freshly constructed queue of capacity `N`, any `N-1`
consecutive `add`s all succeed, the queue is then `full()` (so the `N`-th
`add` fails and changes nothing), and after one descriptor is drained by
`get`, `add` succeeds again. -/
theorem queue_capacity {PD : Type} (N : Nat) (z : PD) (ps : List PD)
    (hN : 0 < N) (hlen : ps.length = N - 1) :
    (∀ (q : Packet_descriptor_queue PD N) (p : PD),
       q.full = true → q.add p = (false, q)) ∧
    (addList (initQueue (N := N) z) ps).2 = true ∧
    ((addList (initQueue (N := N) z) ps).1).full = true ∧
    (2 ≤ N → ∀ p : PD,
       ((((addList (initQueue (N := N) z) ps).1).get).2.add p).1 = true) := by
  have hc0 : (initQueue (N := N) z).count = 0 := by
    simp [count, initQueue]
  have hok := addList_ok hN ps (initQueue z) (inv_init z hN)
    (by rw [hc0, hlen]; omega)
  obtain ⟨hall, hcnt, hinv⟩ := hok
  rw [hc0, hlen] at hcnt
  have hfull : ((addList (initQueue (N := N) z) ps).1).full = true :=
    (full_iff _ hinv.1 hinv.2).2 (by omega)
  refine ⟨fun q p hf => add_of_full q p hf, hall, hfull, fun h2 p => ?_⟩
  set qf := (addList (initQueue (N := N) z) ps).1 with hqf
  have hne : qf.empty = false :=
    not_empty_of_count qf hinv.1 hinv.2 (by omega)
  have hcg : (qf.get).2.count = N - 2 := by
    rw [count_get qf hinv.1 hinv.2 hne, hcnt]
    omega
  have hinv' : Inv (qf.get).2 := inv_get qf hN hinv
  have hnf : (qf.get).2.full = false :=
    not_full_of_count _ hinv'.1 hinv'.2 (by omega)
  exact add_ok _ p hnf

open Packet_descriptor_queue in
/-- C2 witness: capacity 3, two adds succeed, third fails, one get frees a
slot again. -/
theorem queue_capacity_witness :
    (addList (initQueue (N := 3) (0 : Nat)) [4, 5]).2 = true ∧
    ((addList (initQueue (N := 3) (0 : Nat)) [4, 5]).1).full = true ∧
    (((addList (initQueue (N := 3) (0 : Nat)) [4, 5]).1.get).2.add 9).1 = true :=
  ⟨(queue_capacity 3 0 [4, 5] (by decide) (by decide)).2.1,
   (queue_capacity 3 0 [4, 5] (by decide) (by decide)).2.2.1,
   (queue_capacity 3 0 [4, 5] (by decide) (by decide)).2.2.2 (by decide) 9⟩

open Packet_descriptor_queue in
/-- C7 (amended): for every reachable state of a `Packet_descriptor_queue` of
capacity `N ≥ 2` holding `k = (head - tail) mod N` descriptors, `empty()` is
true iff `k = 0`, `full()` iff `k = N-1`, `single_element()` iff `k = 1`,
`single_slot_free()` iff `k = N-2`, and `slots_free()` returns `N-1-k`.
(The original claim, for all capacities, fails at the degenerate capacity
`N = 1`.) -/
theorem queue_predicates_vs_count {PD : Type} {N : Nat} (z : PD)
    (q : Packet_descriptor_queue PD N) (hN : 2 ≤ N) (hr : Reachable z q) :
    (q.empty = true ↔ q.count = 0) ∧
    (q.full = true ↔ q.count = N - 1) ∧
    (q.single_element = true ↔ q.count = 1) ∧
    (q.single_slot_free = true ↔ q.count = N - 2) ∧
    q.slots_free = N - 1 - q.count := by
  have hinv : Inv q := reachable_inv (by omega) hr
  exact ⟨empty_iff q hinv.1 hinv.2, full_iff q hinv.1 hinv.2,
         single_element_iff q hN hinv.1 hinv.2,
         single_slot_free_iff q hN hinv.1 hinv.2,
         slots_free_eq q hinv.1 hinv.2⟩

open Packet_descriptor_queue in
/-- C7 counterexample: at capacity `N = 1` the freshly constructed (hence
reachable) queue holds `k = 0` descriptors, yet `single_element()` returns
true, contradicting the claimed `single_element() ⟺ k = 1` for that state. -/
theorem queue_predicates_vs_count_cex :
    Reachable (0 : Nat) (initQueue (N := 1) 0) ∧
    (initQueue (N := 1) (0 : Nat)).single_element = true ∧
    ¬ ((initQueue (N := 1) (0 : Nat)).count = 1) :=
  ⟨Reachable.init, by decide, by decide⟩

/-!
## Packet-descriptor transmitter

`Packet_descriptor_transmitter<TX_QUEUE>` wraps the tx queue with
flow-control signalling.  The out-of-band `Signal_transmitter _rx_ready` is
modelled by a counter of submitted data-available signals; the signal-receive
machinery (`_tx_ready`) is the blocking side and has no effect on the state
observed here.
-/

structure Packet_descriptor_transmitter (PD : Type) (N : Nat) where
  tx_queue         : Packet_descriptor_queue PD N
  rx_ready_signals : Nat
  tx_wakeup_needed : Bool

namespace Packet_descriptor_transmitter

variable {PD : Type} {N : Nat}

/-- `void tx(packet)` — the blocking wait loop (`_tx_ready.wait_for_signal()`
while the queue is full) is not modelled; this function describes the effect
of a completed `tx` call whose final, successful `add` started from the queue
state `t.tx_queue` (theorems therefore assume `full() == false`).  After the
add, the peer's data-available signal is submitted iff `single_element()`
holds. -/
def tx (t : Packet_descriptor_transmitter PD N) (p : PD) :
    Packet_descriptor_transmitter PD N :=
  let q' := (t.tx_queue.add p).2
  { tx_queue         := q',
    rx_ready_signals := t.rx_ready_signals + (if q'.single_element then 1 else 0),
    tx_wakeup_needed := t.tx_wakeup_needed }

/-- `bool try_tx(packet)` -/
def try_tx (t : Packet_descriptor_transmitter PD N) (p : PD) :
    Bool × Packet_descriptor_transmitter PD N :=
  if t.tx_queue.full then (false, t)
  else
    let q' := (t.tx_queue.add p).2
    (true,
     { tx_queue         := q',
       rx_ready_signals := t.rx_ready_signals,
       tx_wakeup_needed := if q'.single_element then true else t.tx_wakeup_needed })

/-- `bool tx_wakeup()` -/
def tx_wakeup (t : Packet_descriptor_transmitter PD N) :
    Bool × Packet_descriptor_transmitter PD N :=
  (t.tx_wakeup_needed,
   { tx_queue         := t.tx_queue,
     rx_ready_signals := t.rx_ready_signals + (if t.tx_wakeup_needed then 1 else 0),
     tx_wakeup_needed := false })

open Packet_descriptor_queue

theorem two_le_of_not_full (q : Packet_descriptor_queue PD N)
    (hh : q.head < N) (ht : q.tail < N) (hf : q.full = false) : 2 ≤ N := by
  rcases Nat.lt_or_ge N 2 with h | h
  · exfalso
    interval_cases N
    · omega
    · have h0 : q.head = 0 ∧ q.tail = 0 := by omega
      simp [full, h0.1, h0.2] at hf
  · exact h

theorem single_element_add (q : Packet_descriptor_queue PD N) (p : PD)
    (hh : q.head < N) (ht : q.tail < N) (hf : q.full = false) :
    ((q.add p).2.single_element = true ↔ q.empty = true) := by
  have h2 : 2 ≤ N := two_le_of_not_full q hh ht hf
  have hinv' : Inv (q.add p).2 := inv_add q p (by omega) ⟨hh, ht⟩
  rw [single_element_iff _ h2 hinv'.1 hinv'.2, count_add q p hh ht hf,
      empty_iff q hh ht]
  omega

end Packet_descriptor_transmitter

open Packet_descriptor_queue Packet_descriptor_transmitter in
/-- C5: whenever the blocking `tx(packet)` completes (its final `add`
succeeded from a non-full queue), it has submitted the peer's data-available
signal exactly once if the successful add left the queue with exactly one
element — equivalently, if the add transitioned the queue from empty to
non-empty — and has submitted no signal otherwise. -/
theorem tx_signals_once_iff_became_nonempty {PD : Type} {N : Nat}
    (t : Packet_descriptor_transmitter PD N) (p : PD)
    (hh : t.tx_queue.head < N) (ht : t.tx_queue.tail < N)
    (hf : t.tx_queue.full = false) :
    (tx t p).rx_ready_signals =
      t.rx_ready_signals +
        (if (t.tx_queue.add p).2.single_element then 1 else 0) ∧
    ((t.tx_queue.add p).2.single_element = true ↔ t.tx_queue.empty = true) :=
  ⟨rfl, single_element_add t.tx_queue p hh ht hf⟩

open Packet_descriptor_queue Packet_descriptor_transmitter in
/-- C5 witness: a `tx` on an empty queue of capacity 3 submits exactly one
signal. -/
theorem tx_signals_once_iff_became_nonempty_witness :
    ((tx ⟨initQueue (N := 3) (0 : Nat), 0, false⟩ 7).rx_ready_signals =
      0 + (if ((initQueue (N := 3) (0 : Nat)).add 7).2.single_element then 1 else 0)) ∧
    (((initQueue (N := 3) (0 : Nat)).add 7).2.single_element = true ↔
      (initQueue (N := 3) (0 : Nat)).empty = true) :=
  tx_signals_once_iff_became_nonempty ⟨initQueue (N := 3) (0 : Nat), 0, false⟩ 7
    (by decide) (by decide) (by decide)

open Packet_descriptor_queue Packet_descriptor_transmitter in
/-- C6: a successful `try_tx` that transitions the queue from empty to
exactly one element submits no signal itself and defers the notification:
the next `tx_wakeup()` submits the signal and returns true, and a second
`tx_wakeup()` with no intervening empty-to-non-empty transition submits
nothing and returns false. -/
theorem try_tx_defers_wakeup {PD : Type} {N : Nat}
    (t : Packet_descriptor_transmitter PD N) (p : PD)
    (hh : t.tx_queue.head < N) (ht : t.tx_queue.tail < N) (hN : 2 ≤ N)
    (he : t.tx_queue.empty = true) (hw : t.tx_wakeup_needed = false) :
    (try_tx t p).1 = true ∧
    ((try_tx t p).2).rx_ready_signals = t.rx_ready_signals ∧
    (tx_wakeup (try_tx t p).2).1 = true ∧
    ((tx_wakeup (try_tx t p).2).2).rx_ready_signals = t.rx_ready_signals + 1 ∧
    (tx_wakeup (tx_wakeup (try_tx t p).2).2).1 = false ∧
    ((tx_wakeup (tx_wakeup (try_tx t p).2).2).2).rx_ready_signals =
      t.rx_ready_signals + 1 := by
  have hcnt0 : t.tx_queue.count = 0 := (empty_iff t.tx_queue hh ht).1 he
  have hf : t.tx_queue.full = false :=
    not_full_of_count t.tx_queue hh ht (by omega)
  have hse : (t.tx_queue.add p).2.single_element = true :=
    (single_element_add t.tx_queue p hh ht hf).2 he
  simp [try_tx, tx_wakeup, hf, hse]

open Packet_descriptor_queue Packet_descriptor_transmitter in
/-- C6 witness: the deferred-wakeup scenario on a fresh queue of capacity 3. -/
theorem try_tx_defers_wakeup_witness :
    (try_tx ⟨initQueue (N := 3) (0 : Nat), 4, false⟩ 7).1 = true ∧
    ((try_tx ⟨initQueue (N := 3) (0 : Nat), 4, false⟩ 7).2).rx_ready_signals = 4 ∧
    (tx_wakeup (try_tx ⟨initQueue (N := 3) (0 : Nat), 4, false⟩ 7).2).1 = true ∧
    ((tx_wakeup (try_tx ⟨initQueue (N := 3) (0 : Nat), 4, false⟩ 7).2).2).rx_ready_signals = 4 + 1 ∧
    (tx_wakeup (tx_wakeup (try_tx ⟨initQueue (N := 3) (0 : Nat), 4, false⟩ 7).2).2).1 = false ∧
    ((tx_wakeup (tx_wakeup (try_tx ⟨initQueue (N := 3) (0 : Nat), 4, false⟩ 7).2).2).2).rx_ready_signals = 4 + 1 :=
  try_tx_defers_wakeup ⟨initQueue (N := 3) (0 : Nat), 4, false⟩ 7
    (by decide) (by decide) (by decide) (by decide) (by decide)

open Packet_descriptor_queue in
/-- C7 witness: the five predicate laws evaluated on the reachable state
reached by one `add` on a fresh queue of capacity 3. -/
theorem queue_predicates_vs_count_witness :
    (((initQueue (N := 3) (0 : Nat)).add 5).2.empty = true ↔
       ((initQueue (N := 3) (0 : Nat)).add 5).2.count = 0) ∧
    (((initQueue (N := 3) (0 : Nat)).add 5).2.full = true ↔
       ((initQueue (N := 3) (0 : Nat)).add 5).2.count = 3 - 1) ∧
    (((initQueue (N := 3) (0 : Nat)).add 5).2.single_element = true ↔
       ((initQueue (N := 3) (0 : Nat)).add 5).2.count = 1) ∧
    (((initQueue (N := 3) (0 : Nat)).add 5).2.single_slot_free = true ↔
       ((initQueue (N := 3) (0 : Nat)).add 5).2.count = 3 - 2) ∧
    ((initQueue (N := 3) (0 : Nat)).add 5).2.slots_free =
       3 - 1 - ((initQueue (N := 3) (0 : Nat)).add 5).2.count :=
  queue_predicates_vs_count 0 ((initQueue (N := 3) (0 : Nat)).add 5).2 (by decide)
    (Reachable.add (initQueue (N := 3) (0 : Nat)) 5 Reachable.init (by decide))

/-!
## Packet_stream_base

Descriptor validation and the shared-memory layout computed by the
`Packet_stream_base` constructor.  `Genode::off_t` is a 64-bit signed and
`Genode::size_t` a 64-bit unsigned integer; the C++ expression
`packet.offset() + packet.size() <= _bulk_buffer_offset + _bulk_buffer_size`
mixes the two, so both sides are computed in unsigned 64-bit arithmetic
(wrap-around modulo `2^64`), which is written out below.
-/

/-- The packet descriptor: `_offset` (`Genode::off_t`) and `_size`
(`Genode::size_t`). -/
structure Packet_descriptor where
  offset : Int
  size   : Nat
deriving DecidableEq

/-- Two's-complement reinterpretation of a 64-bit `off_t` value as `size_t`,
as performed by the usual arithmetic conversions. -/
def to_unsigned (x : Int) : Nat :=
  (x % (2 ^ 64 : Int)).toNat

/-- Two's-complement reinterpretation of a 64-bit `size_t` value as `off_t`,
as performed by the cast `(Genode::off_t)_bulk_buffer_size`. -/
def to_signed (n : Nat) : Int :=
  if n < 2 ^ 63 then (n : Int) else (n : Int) - 2 ^ 64

/-- `bool packet_valid(Packet_descriptor packet)` of `Packet_stream_base`.
The first two comparisons are signed (`off_t` vs `off_t`), the third is
unsigned with wrap-around. -/
def packet_valid (bulk_buffer_offset : Int) (bulk_buffer_size : Nat)
    (p : Packet_descriptor) : Bool :=
  decide (p.size = 0) ||
    (decide (bulk_buffer_offset ≤ p.offset) &&
     decide (p.offset < bulk_buffer_offset + to_signed bulk_buffer_size) &&
     decide ((to_unsigned p.offset + p.size) % 2 ^ 64 ≤
             (to_unsigned bulk_buffer_offset + bulk_buffer_size) % 2 ^ 64))

/-- Result of `packet_content`: an `Invalid_packet` throw, a null pointer, or
a pointer into the locally mapped dataspace. -/
inductive Content_result where
  | invalid_packet
  | null_ptr
  | ptr (addr : Int)
deriving DecidableEq

/-- `CONTENT_TYPE *packet_content(Packet_descriptor packet)` of
`Packet_stream_base`; `sizeof_content` is `sizeof(CONTENT_TYPE)` (1 for the
character content type). -/
def packet_content (ds_local_base : Int) (bulk_buffer_offset : Int)
    (bulk_buffer_size : Nat) (sizeof_content : Nat) (p : Packet_descriptor) :
    Content_result :=
  if p.size = 0 then Content_result.null_ptr
  else if !packet_valid bulk_buffer_offset bulk_buffer_size p
          || decide (p.size < sizeof_content) then
    Content_result.invalid_packet
  else
    Content_result.ptr (ds_local_base + p.offset)

/-- The claim's mathematical containment of the descriptor's byte range
`[offset, offset+size)` in the bulk-buffer region
`[bulk_buffer_offset, bulk_buffer_offset + bulk_buffer_size)`. -/
def range_contained (bulk_buffer_offset : Int) (bulk_buffer_size : Nat)
    (p : Packet_descriptor) : Prop :=
  bulk_buffer_offset ≤ p.offset ∧
  p.offset + p.size ≤ bulk_buffer_offset + bulk_buffer_size

instance (bo : Int) (bs : Nat) (p : Packet_descriptor) :
    Decidable (range_contained bo bs p) := by
  unfold range_contained
  infer_instance

/-- C3: the claim — every descriptor with `size > 0` whose byte range is not
contained in the bulk-buffer region makes `packet_content` (character content
type) throw `Invalid_packet` — is violated by the code: the third bounds
comparison is evaluated in unsigned 64-bit arithmetic, so for the bulk region
`[128, 384)` the descriptor `(offset 128, size 2^64 - 1)` wraps around,
passes `packet_valid`, and `packet_content` returns a pointer instead of
throwing. -/
theorem packet_content_overflow_bypass :
    (0 : Nat) < 2 ^ 64 - 1 ∧
    ¬ range_contained 128 256 ⟨128, 2 ^ 64 - 1⟩ ∧
    packet_content 0 128 256 1 ⟨128, 2 ^ 64 - 1⟩ = Content_result.ptr 128 := by
  refine ⟨by norm_num, ?_, ?_⟩
  · decide
  · decide

/-- C10: for every packet descriptor with `size == 0`, `packet_content`
returns the null pointer — regardless of the descriptor's offset, even one
outside the bulk-buffer region — and does not throw `Invalid_packet`. -/
theorem packet_content_zero_size_null {ds_local_base bulk_buffer_offset : Int}
    {bulk_buffer_size sizeof_content : Nat} (p : Packet_descriptor)
    (h : p.size = 0) :
    packet_content ds_local_base bulk_buffer_offset bulk_buffer_size
      sizeof_content p = Content_result.null_ptr := by
  simp [packet_content, h]

/-- C10 witness: a zero-size descriptor whose offset `-999` lies far outside
the bulk region `[128, 384)` still yields the null pointer. -/
theorem packet_content_zero_size_null_witness :
    packet_content 0 128 256 1 ⟨-999, 0⟩ = Content_result.null_ptr :=
  packet_content_zero_size_null ⟨-999, 0⟩ rfl

/-!
## Packet_stream_base constructor (C4)
-/

inductive Construction_error where
  | transport_dataspace_too_small
deriving DecidableEq

/-- Modelled from the spec: `align_addr` (from the framework's
`util/misc_math.h`, which is not among the analyzed sources) — the
bulk buffer starts at the end of the two queues "rounded up to the next
64-byte alignment boundary" (`align_addr(..., 6)`). -/
def align_addr (x : Nat) (bits : Nat) : Nat :=
  ((x + 2 ^ bits - 1) / 2 ^ bits) * 2 ^ bits

/-- The layout fields set up by the `Packet_stream_base` constructor. -/
structure Packet_stream_base where
  submit_queue_offset : Nat
  ack_queue_offset    : Nat
  bulk_buffer_offset  : Nat
  bulk_buffer_size    : Nat
  ds_size             : Nat
deriving DecidableEq

/-- The `Packet_stream_base` constructor: offsets of the submit queue, ack
queue and bulk buffer over a transport dataspace of `ds_size` bytes; throws
`Transport_dataspace_too_small` when the bulk-buffer offset does not fall
inside the dataspace. -/
def mk_packet_stream_base (ds_size submit_queue_size ack_queue_size : Nat) :
    Except Construction_error Packet_stream_base :=
  let submit_queue_offset := 0
  let ack_queue_offset := submit_queue_offset + submit_queue_size
  let bulk_buffer_offset := align_addr (ack_queue_offset + ack_queue_size) 6
  if bulk_buffer_offset ≥ ds_size then
    Except.error Construction_error.transport_dataspace_too_small
  else
    Except.ok { submit_queue_offset := submit_queue_offset,
                ack_queue_offset := ack_queue_offset,
                bulk_buffer_offset := bulk_buffer_offset,
                bulk_buffer_size := ds_size - bulk_buffer_offset,
                ds_size := ds_size }

/-- C4: construction over a transport region of total size `S` fails with
`Transport_dataspace_too_small` if and only if the computed
`bulk_buffer_offset` — the end of the submit queue followed by the ack queue,
rounded up to the next 64-byte boundary — is `≥ S`; on success,
`bulk_buffer_size` equals `S` minus `bulk_buffer_offset`. -/
theorem construction_fails_iff_too_small (S sq aq : Nat) :
    (mk_packet_stream_base S sq aq =
        Except.error Construction_error.transport_dataspace_too_small ↔
      S ≤ align_addr (sq + aq) 6) ∧
    (align_addr (sq + aq) 6 < S →
      mk_packet_stream_base S sq aq =
        Except.ok { submit_queue_offset := 0,
                    ack_queue_offset := sq,
                    bulk_buffer_offset := align_addr (sq + aq) 6,
                    bulk_buffer_size := S - align_addr (sq + aq) 6,
                    ds_size := S }) := by
  simp only [mk_packet_stream_base, Nat.zero_add, ge_iff_le]
  split
  · refine ⟨⟨(fun _ => by omega), fun _ => rfl⟩, fun hlt => absurd hlt (by omega)⟩
  · refine ⟨⟨(fun hcontra => nomatch hcontra), fun hle => absurd hle (by omega)⟩,
            fun _ => rfl⟩

/-- C4 witness: a 200-byte region with 32-byte queues succeeds with the bulk
buffer at offset 64 and size 136; a 64-byte region fails. -/
theorem construction_fails_iff_too_small_witness :
    mk_packet_stream_base 200 32 32 =
      Except.ok { submit_queue_offset := 0, ack_queue_offset := 32,
                  bulk_buffer_offset := align_addr (32 + 32) 6,
                  bulk_buffer_size := 200 - align_addr (32 + 32) 6,
                  ds_size := 200 } ∧
    mk_packet_stream_base 64 32 32 =
      Except.error Construction_error.transport_dataspace_too_small :=
  ⟨(construction_fails_iff_too_small 200 32 32).2 (by decide),
   (construction_fails_iff_too_small 64 32 32).1.2 (by decide)⟩

/-!
## Bulk-buffer allocation by `Packet_stream_source` (C8, C9)
-/

/-- Modelled from the spec: the bulk-buffer `Range_allocator`
(`base/allocator.h`, not among the analyzed sources).  Free space is a list
of pairwise-disjoint `(base, size)` byte ranges; `alloc_aligned` carves an
aligned block of the requested size out of the first fitting free range and
fails when fragmentation or exhaustion leaves no fitting range; `free`
returns a range to the free list. -/
structure Range_allocator where
  free_ranges : List (Nat × Nat)

/-- First-fit search: allocate `size` bytes aligned to `2^bits` from a free
list.  Returns the granted base address and the remaining free list. -/
def alloc_from : List (Nat × Nat) → Nat → Nat → Option (Nat × List (Nat × Nat))
  | [], _, _ => none
  | (b, s) :: rest, size, bits =>
    let a := align_addr b bits
    if a + size ≤ b + s then
      some (a, ([(b, a - b), (a + size, b + s - (a + size))].filter
                  (fun r => decide (r.2 ≠ 0))) ++ rest)
    else
      match alloc_from rest size bits with
      | none => none
      | some (addr, rest') => some (addr, (b, s) :: rest')

def Range_allocator.alloc_aligned (al : Range_allocator) (size bits : Nat) :
    Option (Nat × Range_allocator) :=
  match alloc_from al.free_ranges size bits with
  | none => none
  | some (a, rs) => some (a, ⟨rs⟩)

def Range_allocator.free (al : Range_allocator) (base size : Nat) :
    Range_allocator :=
  ⟨(base, size) :: al.free_ranges⟩

/-- `x` lies in one of the ranges of the list. -/
def mem_ranges (rs : List (Nat × Nat)) (x : Nat) : Prop :=
  ∃ r, r ∈ rs ∧ r.1 ≤ x ∧ x < r.1 + r.2

/-- `x` is available (free) in the allocator. -/
def in_free (al : Range_allocator) (x : Nat) : Prop :=
  mem_ranges al.free_ranges x

instance (rs : List (Nat × Nat)) (x : Nat) : Decidable (mem_ranges rs x) := by
  unfold mem_ranges
  infer_instance

instance (al : Range_allocator) (x : Nat) : Decidable (in_free al x) := by
  unfold in_free
  infer_instance

/-- Byte ranges that do not overlap. -/
def range_disjoint (r1 r2 : Nat × Nat) : Prop :=
  r1.1 + r1.2 ≤ r2.1 ∨ r2.1 + r2.2 ≤ r1.1

theorem align_addr_ge (b bits : Nat) : b ≤ align_addr b bits := by
  have hk : 0 < 2 ^ bits := pow_pos (by norm_num) bits
  have h2 : b + 2 ^ bits - 1 <
      (b + 2 ^ bits - 1) / 2 ^ bits * 2 ^ bits + 2 ^ bits :=
    Nat.lt_div_mul_add hk
  unfold align_addr
  omega

theorem alloc_from_subset (size bits : Nat) (rs : List (Nat × Nat)) :
    ∀ a rs', alloc_from rs size bits = some (a, rs') →
      ∀ x, a ≤ x → x < a + size → mem_ranges rs x := by
  induction rs with
  | nil =>
    intro a rs' h
    simp [alloc_from] at h
  | cons r rest ih =>
    intro a rs' h x hx1 hx2
    obtain ⟨b, s⟩ := r
    rw [alloc_from] at h
    split at h
    · rw [Option.some.injEq, Prod.mk.injEq] at h
      obtain ⟨ha, _⟩ := h
      have hba : b ≤ align_addr b bits := align_addr_ge b bits
      exact ⟨(b, s), List.mem_cons_self _ _, by omega, by omega⟩
    · split at h
      · exact absurd h (by simp)
      · rw [Option.some.injEq, Prod.mk.injEq] at h
        obtain ⟨ha, _⟩ := h
        have hmem := ih _ _ (by assumption) x (by omega) (by omega)
        obtain ⟨r0, hr0, hr1, hr2⟩ := hmem
        exact ⟨r0, List.mem_cons_of_mem _ hr0, hr1, hr2⟩

theorem alloc_from_removed (size bits : Nat) (hsz : 0 < size)
    (rs : List (Nat × Nat)) :
    rs.Pairwise range_disjoint →
    ∀ a rs', alloc_from rs size bits = some (a, rs') →
      ∀ x, a ≤ x → x < a + size → ¬ mem_ranges rs' x := by
  induction rs with
  | nil =>
    intro _ a rs' h
    simp [alloc_from] at h
  | cons r rest ih =>
    intro hp a rs' h x hx1 hx2 hmem
    obtain ⟨b, s⟩ := r
    rw [List.pairwise_cons] at hp
    obtain ⟨hd, hp'⟩ := hp
    rw [alloc_from] at h
    split at h
    · next hfit =>
      rw [Option.some.injEq, Prod.mk.injEq] at h
      obtain ⟨ha, hrs⟩ := h
      have hba : b ≤ align_addr b bits := align_addr_ge b bits
      subst hrs
      obtain ⟨r0, hr0, hr1, hr2⟩ := hmem
      rw [List.mem_append] at hr0
      rcases hr0 with hr0 | hr0
      · rw [List.mem_filter] at hr0
        obtain ⟨hr0, _⟩ := hr0
        simp only [List.mem_cons, List.mem_singleton] at hr0
        rcases hr0 with hr0 | hr0 | hr0
        · subst hr0; simp at hr1 hr2; omega
        · subst hr0; simp at hr1 hr2; omega
        · exact absurd hr0 (by simp)
      · have hdj := hd r0 hr0
        unfold range_disjoint at hdj
        simp only at hdj
        omega
    · next hnofit =>
      split at h
      · exact absurd h (by simp)
      · next addr rest'' heq =>
        rw [Option.some.injEq, Prod.mk.injEq] at h
        obtain ⟨ha, hrs⟩ := h
        subst hrs
        have hin : mem_ranges rest x :=
          alloc_from_subset size bits rest _ _ (by rw [ha] at heq; exact heq)
            x hx1 hx2
        obtain ⟨r0, hr0, hr1, hr2⟩ := hmem
        rw [List.mem_cons] at hr0
        rcases hr0 with hr0 | hr0
        · subst hr0
          obtain ⟨r1, hr1m, hr1a, hr1b⟩ := hin
          have hdj := hd r1 hr1m
          unfold range_disjoint at hdj
          simp only at hdj hr1 hr2
          omega
        · exact ih hp' _ _ (by rw [ha] at heq; exact heq) x hx1 hx2
            ⟨r0, hr0, hr1, hr2⟩

inductive Packet_alloc_failed where
  | mk
deriving DecidableEq

/-- `Packet_descriptor alloc_packet(Genode::size_t size, int align)` of
`Packet_stream_source`: consults the allocator only when `size != 0`
(short-circuit `size && alloc_aligned(...)`), throws `Packet_alloc_failed`
when `alloc_aligned` reports an error, otherwise builds the descriptor from
the granted base and the requested size. -/
def alloc_packet (al : Range_allocator) (size : Nat) (bits : Nat) :
    Except Packet_alloc_failed (Packet_descriptor × Range_allocator) :=
  if size = 0 then Except.ok (⟨0, 0⟩, al)
  else
    match al.alloc_aligned size bits with
    | none => Except.error Packet_alloc_failed.mk
    | some (base, al') => Except.ok (⟨(base : Int), size⟩, al')

/-- `void release_packet(Packet_descriptor packet)` of
`Packet_stream_source`: frees the range only when `packet.size()` is
non-zero. -/
def release_packet (al : Range_allocator) (p : Packet_descriptor) :
    Range_allocator :=
  if p.size ≠ 0 then al.free p.offset.toNat p.size else al

/-- C8: for every requested `size > 0`, `alloc_packet` throws
`Packet_alloc_failed` exactly when the bulk-buffer range allocator cannot
provide an aligned free range of the requested size; on success it returns a
descriptor whose offset and size denote the range the allocator assigned
(that range was free before the call), and the range is unavailable to later
allocations until released: it is no longer free, and any further successful
allocation is granted a disjoint range. -/
theorem alloc_packet_spec (al : Range_allocator) (size bits : Nat)
    (hsz : 0 < size) (hwf : al.free_ranges.Pairwise range_disjoint) :
    (alloc_packet al size bits = Except.error Packet_alloc_failed.mk ↔
       al.alloc_aligned size bits = none) ∧
    (∀ (d : Packet_descriptor) (al' : Range_allocator),
       alloc_packet al size bits = Except.ok (d, al') →
       d.size = size ∧
       al.alloc_aligned size bits = some (d.offset.toNat, al') ∧
       (∀ x : Nat, d.offset.toNat ≤ x → x < d.offset.toNat + size →
          in_free al x ∧ ¬ in_free al' x) ∧
       (∀ size2 bits2 a2 al2,
          al'.alloc_aligned size2 bits2 = some (a2, al2) → 0 < size2 →
          a2 + size2 ≤ d.offset.toNat ∨ d.offset.toNat + size ≤ a2)) := by
  unfold alloc_packet
  rw [if_neg (by omega)]
  rcases hm : al.alloc_aligned size bits with _ | r
  · refine ⟨⟨(fun _ => rfl), fun _ => rfl⟩, fun d al' h => nomatch h⟩
  · obtain ⟨base, al'0⟩ := r
    refine ⟨⟨(fun h => nomatch h), fun h => nomatch h⟩, fun d al' h => ?_⟩
    rw [Except.ok.injEq, Prod.mk.injEq] at h
    obtain ⟨hd, hal⟩ := h
    subst hal
    have hdoff : d.offset.toNat = base := by rw [← hd]; simp
    have hdsz : d.size = size := by rw [← hd]
    unfold Range_allocator.alloc_aligned at hm
    rcases hf : alloc_from al.free_ranges size bits with _ | r2
    · rw [hf] at hm; exact absurd hm (by simp)
    · obtain ⟨a0, rs0⟩ := r2
      rw [hf] at hm
      rw [Option.some.injEq, Prod.mk.injEq] at hm
      obtain ⟨hba, hra⟩ := hm
      subst hba
      subst hra
      refine ⟨hdsz, ?_, ?_, ?_⟩
      · rw [hdoff]
      · intro x hx1 hx2
        rw [hdoff] at hx1 hx2
        exact ⟨alloc_from_subset size bits al.free_ranges _ _ hf x hx1 hx2,
               alloc_from_removed size bits hsz al.free_ranges hwf
                 _ _ hf x hx1 hx2⟩
      · intro size2 bits2 a2 al2 h2 hsz2
        by_contra hcon
        push_neg at hcon
        obtain ⟨hc1, hc2⟩ := hcon
        set y := max a2 d.offset.toNat with hy
        have hy1 : a2 ≤ y := le_max_left _ _
        have hy2 : d.offset.toNat ≤ y := le_max_right _ _
        have hy3 : y < a2 + size2 := by omega
        have hy4 : y < d.offset.toNat + size := by omega
        have hfree2 : in_free (⟨rs0⟩ : Range_allocator) y := by
          unfold Range_allocator.alloc_aligned at h2
          rcases hf2 : alloc_from (Range_allocator.free_ranges ⟨rs0⟩) size2 bits2
            with _ | r3
          · rw [hf2] at h2; exact absurd h2 (by simp)
          · obtain ⟨a3, rs3⟩ := r3
            rw [hf2] at h2
            rw [Option.some.injEq, Prod.mk.injEq] at h2
            obtain ⟨hba2, _⟩ := h2
            subst hba2
            exact alloc_from_subset size2 bits2 rs0 _ _ hf2 y hy1 hy3
        have hnfree : ¬ in_free (⟨rs0⟩ : Range_allocator) y := by
          have hrem := alloc_from_removed size bits hsz al.free_ranges hwf
            _ _ hf y (by rw [hdoff] at hy2; exact hy2)
            (by rw [hdoff] at hy4; exact hy4)
          exact hrem
        exact hnfree hfree2

/-- C8 witness: from the free range `[64, 164)`, a 10-byte allocation is
granted `[64, 74)`; byte 70 was free before and is no longer free after. -/
theorem alloc_packet_spec_witness :
    in_free ⟨[(64, 100)]⟩ 70 ∧ ¬ in_free ⟨[(74, 90)]⟩ 70 :=
  ((alloc_packet_spec ⟨[(64, 100)]⟩ 10 0 (by decide) (by simp)).2
     ⟨(64 : Int), 10⟩ ⟨[(74, 90)]⟩ rfl).2.2.1 70 (by decide) (by decide)

/-- C9: `alloc_packet` with `size == 0` never fails and never consults the
bulk-buffer allocator: it returns the descriptor `(offset 0, size 0)` with
the allocator state untouched; symmetrically, `release_packet` of a
descriptor with `size == 0` is a no-op on the allocator state. -/
theorem alloc_release_zero_size (al : Range_allocator) (bits : Nat) (off : Int) :
    alloc_packet al 0 bits = Except.ok (⟨0, 0⟩, al) ∧
    release_packet al ⟨off, 0⟩ = al := by
  constructor
  · rfl
  · simp [release_packet]

end Genode
